import Mathlib

/-!
Shallow embedding of the multi-user Gmail OTP forwarding bot
(class `ProfessionalMultiUserOTPBot`) and proofs about its behaviour.

Conventions of the embedding:
* Python regular-expression matching for the fixed patterns used by
  `extract_otp` is implemented directly (left-to-right scan, first match,
  greedy repetition), restricted to ASCII character classes
  (`\d` = ASCII digit, `\w` = ASCII alphanumeric or underscore,
  `\s` = ASCII whitespace), which is the intended domain of the program.
* Message identifiers (IMAP email ids, decoded strings compared only for
  equality) are modelled as natural numbers.
* The Python `set` used as dedup cache is modelled as a duplicate-free
  list kept in insertion order; since iteration order of a Python set is
  unspecified, every operation that iterates the set
  (`list(set)[:50]`) is parametrised by an arbitrary enumeration
  function `enum` that is only assumed to be a permutation.
* Network effects (Telegram transport, IMAP fetches, sqlite writes) are
  modelled as explicit parameters describing their outcomes.
-/

namespace OtpBot

/-! ## Character classes (ASCII model of the Python regex classes) -/

/-- ASCII model of the regex class `\w`: letters, digits, underscore. -/
def isWordChar (c : Char) : Bool :=
  c.isAlphanum || c = '_'

/-- ASCII model of the regex class `[:\s-]` used by the keyword patterns:
colon, whitespace (space, tab, newline, carriage return, vertical tab,
form feed) or hyphen. -/
def isSepChar (c : Char) : Bool :=
  c = ':' || c = ' ' || c = '\t' || c = '\n' || c = '\r' ||
  c = '\x0b' || c = '\x0c' || c = '-'

/-! ## Matching the bare patterns `\b(\d{k})\b` -/

/-- Consume exactly `k` digits from the front of `cs`.  Returns the digits
and the remaining characters. -/
def takeDigits : Nat → List Char → Option (List Char × List Char)
  | 0, cs => some ([], cs)
  | _ + 1, [] => none
  | n + 1, c :: cs =>
    if c.isDigit then
      match takeDigits n cs with
      | some (ds, rest) => some (c :: ds, rest)
      | none => none
    else none

/-- Word boundary `\b` holds before a digit when the preceding character
(`none` at the start of the string) is not a word character. -/
def boundaryOk (prev : Option Char) : Bool :=
  match prev with
  | none => true
  | some c => !(isWordChar c)

/-- Word boundary `\b` holds after a digit when the following character
(none at the end of the string) is not a word character. -/
def afterOk : List Char → Bool
  | [] => true
  | c :: _ => !(isWordChar c)

/-- One attempt to match `\b(\d{k})\b` at the current position,
where `prev` is the character just before the position. -/
def tryBare (k : Nat) (prev : Option Char) (cs : List Char) :
    Option (List Char × List Char) :=
  if boundaryOk prev then
    match takeDigits k cs with
    | some (ds, rest) => if afterOk rest then some (ds, rest) else none
    | none => none
  else none

/-- Left-to-right scan of `re.findall(r'\b(\d{k})\b', text)`:
try to match at every position, and after a match continue at its end.
`fuel` bounds the number of scan steps (the text length suffices because
every step consumes at least one character for `k ≥ 1`). -/
def bareAux (k : Nat) : Nat → Option Char → List Char → List (List Char)
  | 0, _, _ => []
  | fuel + 1, prev, cs =>
    match cs with
    | [] => []
    | c :: rest =>
      match tryBare k prev (c :: rest) with
      | some (ds, rest2) => ds :: bareAux k fuel (some (ds.getLastD c)) rest2
      | none => bareAux k fuel (some c) rest

/-- All matches of `\b(\d{k})\b` in `cs`. -/
def bareFindAll (k : Nat) (cs : List Char) : List (List Char) :=
  bareAux k cs.length none cs

/-! ## Matching the keyword patterns `kw[:\s-]*(\d{4,8})` (IGNORECASE) -/

/-- Case-insensitive match of the literal keyword `ks` (given lowercase)
against the front of `cs`; returns the remaining characters. -/
def litMatch : List Char → List Char → Option (List Char)
  | [], cs => some cs
  | _ :: _, [] => none
  | k :: ks, c :: cs => if c.toLower = k then litMatch ks cs else none

/-- One attempt to match `kw[:\s-]*(\d{4,8})` at the current position:
the literal keyword, then a greedy run of separator characters, then
greedily 4 to 8 digits.  (No backtracking is needed: the separator class
and `\d` are disjoint.) -/
def tryKw (w : List Char) (cs : List Char) : Option (List Char × List Char) :=
  match litMatch w cs with
  | none => none
  | some rest1 =>
    let rest2 := rest1.dropWhile isSepChar
    let ds := (rest2.takeWhile Char.isDigit).take 8
    if 4 ≤ ds.length then some (ds, rest2.drop ds.length) else none

/-- Left-to-right scan of `re.findall` for a keyword pattern. -/
def kwAux (w : List Char) : Nat → List Char → List (List Char)
  | 0, _ => []
  | fuel + 1, cs =>
    match cs with
    | [] => []
    | c :: rest =>
      match tryKw w (c :: rest) with
      | some (ds, rest2) => ds :: kwAux w fuel rest2
      | none => kwAux w fuel rest

/-! ## The ordered pattern list of `extract_otp` -/

/-- One entry of the `patterns` list in `extract_otp`: either a bare
pattern `\b(\d{k})\b` or a keyword pattern `kw[:\s-]*(\d{4,8})`. -/
inductive Pat where
  | bare (k : Nat)
  | kw (w : String)
deriving DecidableEq

/-- The keywords of the keyword-prefixed patterns, in source order. -/
def keywordStrs : List String :=
  ["code", "verification", "otp", "pin", "token", "confirm",
   "authenticate", "security"]

/-- The `patterns` list of `extract_otp`, in source order. -/
def patternList : List Pat :=
  [.bare 6, .bare 4, .bare 5, .bare 8] ++ keywordStrs.map .kw

/-- `re.findall(pattern, text, re.IGNORECASE)` for one pattern. -/
def patternMatches (p : Pat) (text : String) : List String :=
  match p with
  | .bare k => (bareFindAll k text.data).map (fun ds => ⟨ds⟩)
  | .kw w => (kwAux w.data text.data.length text.data).map (fun ds => ⟨ds⟩)

/-- The filter `4 <= len(code) <= 8 and code.isdigit()`. -/
def valid_code (s : String) : Bool :=
  decide (4 ≤ s.length) && decide (s.length ≤ 8) && s.data.all Char.isDigit

/-- The inner loop `for match in matches: if valid: return code`. -/
def firstValid : List String → Option String
  | [] => none
  | m :: ms => if valid_code m then some m else firstValid ms

/-- The outer loop `for pattern in patterns`. -/
def patternsLoop : List Pat → String → Option String
  | [], _ => none
  | p :: ps, text =>
    match firstValid (patternMatches p text) with
    | some c => some c
    | none => patternsLoop ps text

/-- `ProfessionalMultiUserOTPBot.extract_otp` (empty text short-circuits
to `None`). -/
def extract_otp (text : String) : Option String :=
  if text = "" then none else patternsLoop patternList text

/-- `extract_otp` lifted to an optional argument: a Python `None`
argument is falsy and also returns `None`. -/
def extract_otp_opt : Option String → Option String
  | none => none
  | some t => extract_otp t

/-- Same loop as `patternsLoop` but additionally reporting the index of
the pattern that produced the returned candidate. -/
def patternsLoopIdx : Nat → List Pat → String → Option (Nat × String)
  | _, [], _ => none
  | i, p :: ps, text =>
    match firstValid (patternMatches p text) with
    | some c => some (i, c)
    | none => patternsLoopIdx (i + 1) ps text

/-- `extract_otp` instrumented with the index of the selecting pattern. -/
def extract_otp_trace (text : String) : Option (Nat × String) :=
  if text = "" then none else patternsLoopIdx 0 patternList text

/-- The match list of the `i`-th pattern of `patternList`. -/
def matchesIdx (i : Nat) (text : String) : List String :=
  match patternList[i]? with
  | some p => patternMatches p text
  | none => []

/-! ## Notification dispatcher: `send_message`

One call to the transport is modelled by `transport attempt`, the outcome
of the HTTP POST of the given attempt index: `Except.error e` models a
raised exception, `Except.ok s` a response with status code `s`
(success only for `200`). -/

/-- The constant `max_retries` of `send_message`. -/
def max_retries : Nat := 3

/-- Whether one transport outcome counts as a successful delivery
(`response.status_code == 200`). -/
def attemptSuccess : Except String Nat → Bool
  | .ok s => s == 200
  | .error _ => false

/-- Observable trace of one `send_message` call: the returned value
(`none` models the Python `None` after exhausting the budget), the number
of transport attempts made and the number of `time.sleep(1)` pauses. -/
structure SendTrace where
  result : Option Nat
  attemptsMade : Nat
  sleeps : Nat
deriving DecidableEq

/-- The retry loop of `send_message`, starting at attempt index
`attempt` with `rem` attempts remaining.  A non-success status or a
raised transport error both fall through to the next attempt; a
one-second pause is inserted between attempts (`attempt < max_retries - 1`,
equivalently `rem` is not exhausted after the current attempt). -/
def sendFrom (transport : Nat → Except String Nat) (attempt : Nat) :
    Nat → SendTrace
  | 0 => ⟨none, 0, 0⟩
  | rem + 1 =>
    let failCont : SendTrace :=
      let t := sendFrom transport (attempt + 1) rem
      ⟨t.result, t.attemptsMade + 1, t.sleeps + (if rem = 0 then 0 else 1)⟩
    match transport attempt with
    | .ok status => if status = 200 then ⟨some status, 1, 0⟩ else failCont
    | .error _ => failCont

/-- `ProfessionalMultiUserOTPBot.send_message` (per-call trace). -/
def send_message (transport : Nat → Except String Nat) : SendTrace :=
  sendFrom transport 0 max_retries

/-! ## Persistence: `log_otp`

The durable `otp_logs` relation is modelled as an append-only list of
events; an event row carries the owning message identifier (as ghost
provenance — the real row carries sender, code, subject, latency) and the
extracted code.  The in-memory per-user counters of `user_stats` are the
running OTP total and the last-OTP time. -/

/-- The in-memory per-user counters of `user_stats[chat_id]`. -/
structure Stats where
  total_otps : Nat
  last_otp_time : Option Nat
deriving DecidableEq

/-- `ProfessionalMultiUserOTPBot.log_otp`.  `store` is the outcome of the
sqlite insert/update/commit sequence; when it raises, control jumps to the
`except` handler, so the in-memory counter update (which sits after the
commit inside the `try` block) is skipped. -/
def log_otp (store : Except String Unit) (now : Nat)
    (logs : List (Nat × String)) (stats : Stats) (ev : Nat × String) :
    List (Nat × String) × Stats :=
  match store with
  | .ok _ => (logs ++ [ev], ⟨stats.total_otps + 1, some now⟩)
  | .error _ => (logs, stats)

/-! ## Per-user poller: the candidate loop of `monitor_gmail_for_user`

The fragment modelled is the body of
`for email_id in reversed(email_ids[-5:])`: the dedup-cache check, the
immediate cache insertion, the fetch (`env id`, `none` modelling a fetch
whose status is not OK), extraction from subject then body, notification,
durable logging, and the batch eviction of the cache.  Which candidate
identifiers a cycle presents (the unseen-search results) is an input. -/

/-- A fetched and decoded email. -/
structure Msg where
  sender_email : String
  sender_name : String
  subject : String
  body : String
deriving DecidableEq

/-- Extraction as performed per message: subject first, body only if the
subject yields nothing. -/
def msgOtp (m : Msg) : Option String :=
  match extract_otp m.subject with
  | some c => some c
  | none => extract_otp m.body

/-- The OTP obtained for a candidate identifier: fetch, then `msgOtp`. -/
def otpOf (env : Nat → Option Msg) (id : Nat) : Option String :=
  match env id with
  | some m => msgOtp m
  | none => none

/-- Poller state visible to the claims: the dedup cache
(`last_processed_emails`, a Python set modelled as a duplicate-free list
in insertion order), the dispatcher calls made (identifier, code, value
returned by `send_message`), the durable `otp_logs` rows and the
in-memory counters. -/
structure PollSt where
  processed : List Nat
  notifications : List (Nat × String × Option Nat)
  events : List (Nat × String)
  stats : Stats

/-- The body of the candidate loop for one candidate `id`.
`enum` models the unspecified iteration order of the Python set: the code
evicts `list(set)[:50]`, modelled as `(enum processed).take 50` where
`enum` is an arbitrary permutation.  Note that a candidate already in the
cache is skipped by `continue` (which also skips the eviction check), and
that a fresh candidate is added to the cache before the fetch. -/
def process_candidate (env : Nat → Option Msg)
    (transport : Nat → Except String Nat) (store : Except String Unit)
    (now : Nat) (enum : List Nat → List Nat) (st : PollSt) (id : Nat) :
    PollSt :=
  if id ∈ st.processed then st
  else
    let st1 : PollSt := { st with processed := st.processed ++ [id] }
    let st2 : PollSt :=
      match env id with
      | none => st1
      | some m =>
        match msgOtp m with
        | none => st1
        | some code =>
          let tr := send_message transport
          let ls := log_otp store now st1.events st1.stats (id, code)
          { st1 with
              notifications := st1.notifications ++ [(id, code, tr.result)],
              events := ls.1,
              stats := ls.2 }
    if st2.processed.length > 100 then
      let evict := (enum st2.processed).take 50
      { st2 with processed := st2.processed.filter (fun x => decide (x ∉ evict)) }
    else st2

/-- Initial poller state of a fresh session. -/
def initSt : PollSt := ⟨[], [], [], ⟨0, none⟩⟩

/-- Present a sequence of candidate identifiers (the concatenation of the
candidate lists of successive poll cycles) to the candidate loop. -/
def runList (env : Nat → Option Msg) (transport : Nat → Except String Nat)
    (store : Except String Unit) (now : Nat) (enum : List Nat → List Nat)
    (ids : List Nat) : PollSt :=
  ids.foldl (process_candidate env transport store now enum) initSt

/-- Number of dispatcher calls made for messages with identifier `x`. -/
def notifCount (st : PollSt) (x : Nat) : Nat :=
  (st.notifications.filter (fun e => e.1 == x)).length

/-- Number of durable OTPEvent rows recorded for identifier `x`. -/
def eventCount (st : PollSt) (x : Nat) : Nat :=
  (st.events.filter (fun e => e.1 == x)).length

/-- Invariant of the candidate loop while no eviction has occurred:
the cache is duplicate-free and holds exactly the identifiers presented
so far (`seen`), each identifier has been notified exactly once when it
was presented and its message yields a code (and never otherwise), and
the durable event log mirrors the notifications. -/
def Inv (env : Nat → Option Msg) (seen : List Nat) (st : PollSt) : Prop :=
  st.processed.Nodup ∧
  (∀ x, x ∈ st.processed ↔ x ∈ seen) ∧
  (∀ x, notifCount st x =
    if x ∈ seen ∧ (otpOf env x).isSome = true then 1 else 0) ∧
  (∀ x, eventCount st x = notifCount st x)


/-! ## Onboarding: `handle_user_input`

The per-session onboarding data: `waiting` is the entry of
`waiting_states` (`none` = Idle, `email` = AwaitingAddress,
`password` = AwaitingCredential), `tempEmail` the staged address in
`temp_credentials`, `account` the entry of `users` written by
`save_user` (the persisted Account), `monitoring` the flag set by
`start_monitoring_for_user`, and `sent` the messages delivered to the
user.  The message texts are abbreviated from the HTML originals; only
their identity matters here. -/

inductive WaitState where
  | email
  | password
deriving DecidableEq

structure Sess where
  waiting : Option WaitState
  tempEmail : Option String
  account : Option (String × String)
  monitoring : Bool
  sent : List String
deriving DecidableEq

def invalidEmailMsg : String := "Invalid Email! Please send a valid Gmail address:"
def emailReceivedMsg (e : String) : String :=
  "Email Received: " ++ e ++ " Now send your App Password:"
def startOverMsg : String := "Error! Please start over with /login"
def testingMsg : String := "Testing Gmail connection... Please wait..."
def successMsg (e : String) : String := "Connected Successfully! Email: " ++ e
def saveErrMsg : String := "Error saving credentials. Please try /login again."
/-- The fixed diagnostic sent on a failed authentication probe.  It is a
constant: the caught exception is logged but never interpolated into the
user-visible message. -/
def connectionFailedMsg : String :=
  "Connection Failed! Possible issues: incorrect App Password, 2FA not enabled. Use /login to try again"

/-- Python `str.strip()` (ASCII whitespace model). -/
def pyStrip (s : String) : String :=
  ⟨((s.data.dropWhile Char.isWhitespace).reverse.dropWhile
      Char.isWhitespace).reverse⟩

/-- `ProfessionalMultiUserOTPBot.handle_user_input`.
`probe` is the live IMAP authentication attempt
(`imaplib.IMAP4_SSL ... login/select`), returning `Except.error e` when it
raises; `saveOk` is the outcome of `save_user`.  On the success path
`save_user` stores the account and `start_monitoring_for_user` starts the
poller; both the success and the failure path end by popping
`waiting_states` and `temp_credentials`. -/
def handle_user_input (probe : String → String → Except String Unit)
    (saveOk : Bool) (sess : Sess) (text : String) : Sess :=
  match sess.waiting with
  | none => sess
  | some .email =>
    if ('@' ∉ text.data) ∨ ('.' ∉ text.data) then
      { sess with sent := sess.sent ++ [invalidEmailMsg] }
    else
      { sess with
          tempEmail := some (pyStrip text),
          waiting := some .password,
          sent := sess.sent ++ [emailReceivedMsg (pyStrip text)] }
  | some .password =>
    match sess.tempEmail with
    | none => { sess with sent := sess.sent ++ [startOverMsg] }
    | some em =>
      let pw := pyStrip text
      let sess1 : Sess := { sess with sent := sess.sent ++ [testingMsg] }
      let sess2 : Sess :=
        match probe em pw with
        | .ok _ =>
          if saveOk then
            { sess1 with
                account := some (em, pw),
                monitoring := true,
                sent := sess1.sent ++ [successMsg em] }
          else
            { sess1 with sent := sess1.sent ++ [saveErrMsg] }
        | .error _ =>
          { sess1 with sent := sess1.sent ++ [connectionFailedMsg] }
      { sess2 with waiting := none, tempEmail := none }

/-! ## Every match of every pattern already passes the validity filter -/

theorem takeDigits_spec : ∀ (k : Nat) (cs ds rest : List Char),
    takeDigits k cs = some (ds, rest) →
    ds.length = k ∧ ds.all Char.isDigit = true := by
  intro k
  induction k with
  | zero =>
    intro cs ds rest h
    simp only [takeDigits, Option.some.injEq, Prod.mk.injEq] at h
    obtain ⟨h1, _⟩ := h
    subst h1
    exact ⟨rfl, rfl⟩
  | succ n ih =>
    intro cs ds rest h
    cases cs with
    | nil => simp [takeDigits] at h
    | cons c cs' =>
      simp only [takeDigits] at h
      by_cases hd : c.isDigit
      · rw [if_pos hd] at h
        cases htd : takeDigits n cs' with
        | none => rw [htd] at h; exact absurd h (by simp)
        | some pr =>
          obtain ⟨ds', rest'⟩ := pr
          rw [htd] at h
          simp only [Option.some.injEq, Prod.mk.injEq] at h
          obtain ⟨hl, ha⟩ := ih cs' ds' rest' htd
          rw [← h.1]
          simp [hl, ha, hd]
      · rw [if_neg hd] at h; exact absurd h (by simp)

theorem tryBare_spec {k : Nat} {prev : Option Char} {cs ds rest : List Char}
    (h : tryBare k prev cs = some (ds, rest)) :
    ds.length = k ∧ ds.all Char.isDigit = true := by
  unfold tryBare at h
  by_cases hb : boundaryOk prev = true
  · rw [if_pos hb] at h
    cases htd : takeDigits k cs with
    | none => rw [htd] at h; exact absurd h (by simp)
    | some pr =>
      obtain ⟨ds', rest'⟩ := pr
      rw [htd] at h
      have h' : (if afterOk rest' = true then some (ds', rest') else none) =
          some (ds, rest) := h
      by_cases ha : afterOk rest' = true
      · rw [if_pos ha] at h'
        simp only [Option.some.injEq, Prod.mk.injEq] at h'
        obtain ⟨h1, _⟩ := h'
        subst h1
        exact takeDigits_spec k cs ds' rest' htd
      · rw [if_neg ha] at h'; exact absurd h' (by simp)
  · rw [if_neg hb] at h; exact absurd h (by simp)

theorem bareAux_valid {k : Nat} : ∀ (fuel : Nat) (prev : Option Char)
    (cs ds : List Char), ds ∈ bareAux k fuel prev cs →
    ds.length = k ∧ ds.all Char.isDigit = true := by
  intro fuel
  induction fuel with
  | zero => intro prev cs ds h; simp [bareAux] at h
  | succ n ih =>
    intro prev cs ds h
    cases cs with
    | nil => simp [bareAux] at h
    | cons c rest =>
      simp only [bareAux] at h
      cases htb : tryBare k prev (c :: rest) with
      | none => rw [htb] at h; exact ih _ _ _ h
      | some pr =>
        obtain ⟨ds0, rest2⟩ := pr
        rw [htb] at h
        rcases List.mem_cons.mp h with h1 | h1
        · subst h1; exact tryBare_spec htb
        · exact ih _ _ _ h1

theorem tryKw_spec {w cs ds rest : List Char}
    (h : tryKw w cs = some (ds, rest)) :
    4 ≤ ds.length ∧ ds.length ≤ 8 ∧ ds.all Char.isDigit = true := by
  unfold tryKw at h
  cases hlit : litMatch w cs with
  | none => rw [hlit] at h; exact absurd h (by simp)
  | some rest1 =>
    rw [hlit] at h
    simp only at h
    split at h
    · rename_i hge
      simp only [Option.some.injEq, Prod.mk.injEq] at h
      obtain ⟨h1, _⟩ := h
      subst h1
      refine ⟨hge, ?_, ?_⟩
      · rw [List.length_take]
        exact min_le_left _ _
      · rw [List.all_eq_true]
        intro a ha
        exact List.mem_takeWhile_imp (List.mem_of_mem_take ha)
    · exact absurd h (by simp)

theorem kwAux_valid {w : List Char} : ∀ (fuel : Nat) (cs ds : List Char),
    ds ∈ kwAux w fuel cs →
    4 ≤ ds.length ∧ ds.length ≤ 8 ∧ ds.all Char.isDigit = true := by
  intro fuel
  induction fuel with
  | zero => intro cs ds h; simp [kwAux] at h
  | succ n ih =>
    intro cs ds h
    cases cs with
    | nil => simp [kwAux] at h
    | cons c rest =>
      simp only [kwAux] at h
      cases htb : tryKw w (c :: rest) with
      | none => rw [htb] at h; exact ih _ _ h
      | some pr =>
        obtain ⟨ds0, rest2⟩ := pr
        rw [htb] at h
        rcases List.mem_cons.mp h with h1 | h1
        · subst h1; exact tryKw_spec htb
        · exact ih _ _ h1

theorem patternMatches_valid {p : Pat} (hp : p ∈ patternList) {text : String}
    {m : String} (hm : m ∈ patternMatches p text) : valid_code m = true := by
  have key : ∀ ds : List Char,
      4 ≤ ds.length → ds.length ≤ 8 → ds.all Char.isDigit = true →
      valid_code ⟨ds⟩ = true := by
    intro ds h1 h2 h3
    simp only [valid_code, String.length, Bool.and_eq_true, decide_eq_true_eq]
    exact ⟨⟨h1, h2⟩, h3⟩
  have hbare : ∀ k : Nat, 4 ≤ k → k ≤ 8 → p = .bare k → valid_code m = true := by
    intro k h4 h8 hpk
    subst hpk
    simp only [patternMatches, List.mem_map] at hm
    obtain ⟨ds, hds, rfl⟩ := hm
    obtain ⟨hl, ha⟩ := bareAux_valid _ _ _ _ hds
    exact key ds (hl ▸ h4) (hl ▸ h8) ha
  have hkw : ∀ w : String, p = .kw w → valid_code m = true := by
    intro w hpw
    subst hpw
    simp only [patternMatches, List.mem_map] at hm
    obtain ⟨ds, hds, rfl⟩ := hm
    obtain ⟨h1, h2, h3⟩ := kwAux_valid _ _ _ hds
    exact key ds h1 h2 h3
  simp only [patternList, keywordStrs, List.map, List.cons_append,
    List.nil_append, List.mem_cons, List.not_mem_nil, or_false] at hp
  rcases hp with rfl | rfl | rfl | rfl | rfl | rfl | rfl | rfl | rfl | rfl | rfl | rfl
  · exact hbare 6 (by norm_num) (by norm_num) rfl
  · exact hbare 4 (by norm_num) (by norm_num) rfl
  · exact hbare 5 (by norm_num) (by norm_num) rfl
  · exact hbare 8 (by norm_num) (by norm_num) rfl
  all_goals exact hkw _ rfl

/-! ## The pattern loop -/

theorem firstValid_some_valid : ∀ {ms : List String} {c : String},
    firstValid ms = some c → valid_code c = true := by
  intro ms
  induction ms with
  | nil => intro c h; simp [firstValid] at h
  | cons m tl ih =>
    intro c h
    simp only [firstValid] at h
    split at h
    · cases h; assumption
    · exact ih h

theorem firstValid_cons_valid {m : String} {ms : List String}
    (h : valid_code m = true) : firstValid (m :: ms) = some m := by
  simp [firstValid, h]

theorem patternsLoop_cons_empty {p : Pat} {ps : List Pat} {text : String}
    (h : patternMatches p text = []) :
    patternsLoop (p :: ps) text = patternsLoop ps text := by
  simp [patternsLoop, h, firstValid]

theorem patternsLoop_cons_hit {p : Pat} {ps : List Pat} {text : String}
    {m : String} {ms : List String} (h : patternMatches p text = m :: ms)
    (hv : valid_code m = true) : patternsLoop (p :: ps) text = some m := by
  simp [patternsLoop, h, firstValid_cons_valid hv]

theorem patternsLoop_some_valid : ∀ {ps : List Pat} {text : String}
    {c : String}, patternsLoop ps text = some c → valid_code c = true := by
  intro ps
  induction ps with
  | nil => intro text c h; simp [patternsLoop] at h
  | cons p tl ih =>
    intro text c h
    simp only [patternsLoop] at h
    cases hfv : firstValid (patternMatches p text) with
    | none => rw [hfv] at h; exact ih h
    | some c' =>
      rw [hfv] at h
      cases h
      exact firstValid_some_valid hfv

theorem patternsLoop_idx : ∀ (ps : List Pat) (text : String) (i : Nat)
    (p : Pat) (m : String) (ms : List String),
    (∀ q ∈ ps, ∀ x ∈ patternMatches q text, valid_code x = true) →
    (∀ j, j < i → ((ps[j]?.map fun q => patternMatches q text).getD []) = []) →
    ps[i]? = some p →
    patternMatches p text = m :: ms →
    patternsLoop ps text = some m := by
  intro ps
  induction ps with
  | nil => intro text i p m ms _ _ hp _; simp at hp
  | cons q tl ih =>
    intro text i p m ms hval hemp hp hm
    cases i with
    | zero =>
      simp only [List.getElem?_cons_zero, Option.some.injEq] at hp
      subst hp
      exact patternsLoop_cons_hit hm (hval q (by simp) m (by rw [hm]; simp))
    | succ j =>
      have h0 : patternMatches q text = [] := by
        have := hemp 0 (Nat.succ_pos j)
        simpa using this
      rw [patternsLoop_cons_empty h0]
      apply ih text j p m ms
      · intro r hr x hx
        exact hval r (by simp [hr]) x hx
      · intro j' hj'
        have := hemp (j' + 1) (Nat.succ_lt_succ hj')
        simpa using this
      · simpa using hp
      · exact hm

/-! ## Claims about the OTP extraction engine -/

/-- C1: `extract_otp` tries the patterns in the fixed priority order —
bare 6-digit, bare 4-digit, bare 5-digit, bare 8-digit, then the
keyword-prefixed patterns for `code`, `verification`, `otp`, `pin`,
`token`, `confirm`, `authenticate`, `security` — and returns the first
candidate of the first pattern that yields a match; since every match of
every listed pattern automatically consists of 4 to 8 digits (second
conjunct), that candidate is exactly the first match satisfying the
digits-only length-4-to-8 filter, and a first match of pattern `i` wins
regardless of what any later pattern would match (third conjunct places
no condition on the patterns after `i`). -/
theorem extract_otp_pattern_priority :
    patternList = [.bare 6, .bare 4, .bare 5, .bare 8,
      .kw "code", .kw "verification", .kw "otp", .kw "pin",
      .kw "token", .kw "confirm", .kw "authenticate", .kw "security"] ∧
    (∀ p ∈ patternList, ∀ (text m : String),
      m ∈ patternMatches p text → valid_code m = true) ∧
    (∀ (text : String) (i : Nat) (m : String) (ms : List String),
      text ≠ "" →
      (∀ j, j < i → matchesIdx j text = []) →
      matchesIdx i text = m :: ms →
      extract_otp text = some m) := by
  refine ⟨rfl, fun p hp text m hm => patternMatches_valid hp hm, ?_⟩
  intro text i m ms hne hemp hidx
  unfold extract_otp
  rw [if_neg hne]
  cases hp : patternList[i]? with
  | none =>
    rw [matchesIdx, hp] at hidx
    exact absurd hidx (by simp)
  | some p =>
    apply patternsLoop_idx patternList text i p m ms
    · intro q hq x hx
      exact patternMatches_valid hq hx
    · intro j hj
      have hj2 := hemp j hj
      rw [matchesIdx] at hj2
      cases hq : patternList[j]? with
      | none => simp [hq]
      | some r =>
        rw [hq] at hj2
        simpa [hq] using hj2
    · exact hp
    · rw [matchesIdx, hp] at hidx
      exact hidx

/-- Witness for C1: on `"code:1234567"` the four bare patterns yield no
match (the digit run has length 7), the keyword pattern at index 4 yields
`"1234567"`, and `extract_otp` returns it. -/
theorem extract_otp_pattern_priority_witness :
    matchesIdx 4 "code:1234567" = ["1234567"] ∧
    extract_otp "code:1234567" = some "1234567" :=
  ⟨by decide,
   extract_otp_pattern_priority.2.2 "code:1234567" 4 "1234567" []
     (by decide) (by decide) (by decide)⟩

/-- C7 counterexample: on `"Your verification code: 48213"` the candidate
`"48213"` is selected by the pattern at index 2 of the priority list,
which is the bare 5-digit pattern — a bare-digit pattern, not the
keyword-prefixed `verification`/`code` pattern claimed by the spec (the
keyword patterns occupy indices 4 and up). -/
theorem extract_otp_48213_selected_by_bare5 :
    extract_otp_trace "Your verification code: 48213" = some (2, "48213") ∧
    patternList[2]? = some (Pat.bare 5) := by
  exact ⟨by decide, by decide⟩

/-- C7 amended: extraction of `"Your verification code: 48213"` does
return `"48213"`, but it is selected by the bare 5-digit pattern (index 2,
ahead of all keyword-prefixed patterns), not by a keyword pattern: a bare
5-digit run is already length-valid. -/
theorem extract_otp_48213_value :
    extract_otp "Your verification code: 48213" = some "48213" := by decide

/-- C8: any text in which the bare 6-digit pattern finds exactly one
match (one bare 6-digit run) and no keyword-prefixed pattern matches
makes `extract_otp` return that run.  (The bare 6-digit pattern is first
in the priority list, so the keyword hypothesis is not even needed.) -/
theorem extract_otp_unique_six_digit :
    ∀ (text r : String),
      patternMatches (.bare 6) text = [r] →
      (∀ w ∈ keywordStrs, patternMatches (.kw w) text = []) →
      extract_otp text = some r := by
  intro text r h6 _
  have hne : text ≠ "" := by
    intro he
    subst he
    have h0 : patternMatches (.bare 6) "" = [] := by decide
    rw [h0] at h6
    exact absurd h6 (by simp)
  have hv : valid_code r = true :=
    patternMatches_valid (p := .bare 6) (by decide) (by rw [h6]; simp)
  unfold extract_otp
  rw [if_neg hne]
  have hshape : patternList = Pat.bare 6 ::
      ([Pat.bare 4, Pat.bare 5, Pat.bare 8] ++ keywordStrs.map Pat.kw) := rfl
  rw [hshape]
  exact patternsLoop_cons_hit h6 hv

/-- Witness for C8: `"abc 123456 xyz"` contains exactly one bare 6-digit
run and no keyword occurs in it. -/
theorem extract_otp_unique_six_digit_witness :
    extract_otp "abc 123456 xyz" = some "123456" :=
  extract_otp_unique_six_digit "abc 123456 xyz" "123456" (by decide) (by decide)

/-- C10: for every input — including the empty string and an absent
(`None`) value — extraction either returns no code or returns a string
of 4 to 8 characters all of which are digits; the function is total, so
it cannot raise. -/
theorem extract_otp_shape :
    extract_otp_opt none = none ∧ extract_otp "" = none ∧
    ∀ t : Option String,
      extract_otp_opt t = none ∨
      ∃ s : String, extract_otp_opt t = some s ∧
        4 ≤ s.length ∧ s.length ≤ 8 ∧ s.data.all Char.isDigit = true := by
  refine ⟨rfl, by decide, ?_⟩
  intro t
  cases t with
  | none => exact Or.inl rfl
  | some text =>
    cases hx : extract_otp text with
    | none => exact Or.inl (by simpa [extract_otp_opt] using hx)
    | some s =>
      refine Or.inr ⟨s, by simpa [extract_otp_opt] using hx, ?_⟩
      have hv : valid_code s = true := by
        unfold extract_otp at hx
        split at hx
        · exact absurd hx (by simp)
        · exact patternsLoop_some_valid hx
      simp only [valid_code, Bool.and_eq_true, decide_eq_true_eq] at hv
      exact ⟨hv.1.1, hv.1.2, hv.2⟩

/-! ## Claims about the notification dispatcher -/

theorem sendFrom_spec (transport : Nat → Except String Nat) :
    ∀ (rem attempt : Nat), 1 ≤ rem →
      (sendFrom transport attempt rem).attemptsMade ≤ rem ∧
      (sendFrom transport attempt rem).sleeps + 1 =
        (sendFrom transport attempt rem).attemptsMade := by
  intro rem
  induction rem with
  | zero => intro attempt h; exact absurd h (by omega)
  | succ n ih =>
    intro attempt _
    have hz : sendFrom transport (attempt + 1) 0 = ⟨none, 0, 0⟩ := rfl
    simp only [sendFrom]
    cases ht : transport attempt with
    | ok s =>
      dsimp only
      by_cases hs : s = 200
      · rw [if_pos hs]
        dsimp only
        omega
      · rw [if_neg hs]
        cases n with
        | zero =>
          rw [hz]
          dsimp only
          simp
        | succ n' =>
          obtain ⟨h1, h2⟩ := ih (attempt + 1) (by omega)
          have hnz : ¬ (n' + 1 = 0) := by omega
          rw [if_neg hnz]
          dsimp only
          omega
    | error e =>
      cases n with
      | zero =>
        rw [hz]
        simp
      | succ n' =>
        obtain ⟨h1, h2⟩ := ih (attempt + 1) (by omega)
        have hnz : ¬ (n' + 1 = 0) := by omega
        rw [if_neg hnz]
        dsimp only
        omega

theorem sendFrom_all_fail (transport : Nat → Except String Nat) :
    ∀ (rem attempt : Nat), 1 ≤ rem →
      (∀ i, attempt ≤ i → i < attempt + rem →
        attemptSuccess (transport i) = false) →
      sendFrom transport attempt rem = ⟨none, rem, rem - 1⟩ := by
  intro rem
  induction rem with
  | zero => intro attempt h; exact absurd h (by omega)
  | succ n ih =>
    intro attempt _ hf
    have hfa : attemptSuccess (transport attempt) = false :=
      hf attempt le_rfl (by omega)
    have hz : sendFrom transport (attempt + 1) 0 = ⟨none, 0, 0⟩ := rfl
    simp only [sendFrom]
    cases ht : transport attempt with
    | ok s =>
      have hs : ¬ s = 200 := by
        rw [ht] at hfa
        simpa [attemptSuccess] using hfa
      dsimp only
      rw [if_neg hs]
      cases n with
      | zero =>
        rw [hz]
        rfl
      | succ n' =>
        rw [ih (attempt + 1) (by omega)
          (fun i h1 h2 => hf i (by omega) (by omega))]
        have hnz : ¬ (n' + 1 = 0) := by omega
        rw [if_neg hnz]
        rfl
    | error e =>
      cases n with
      | zero =>
        rw [hz]
        rfl
      | succ n' =>
        rw [ih (attempt + 1) (by omega)
          (fun i h1 h2 => hf i (by omega) (by omega))]
        have hnz : ¬ (n' + 1 = 0) := by omega
        rw [if_neg hnz]
        rfl

/-- C4: `send_message` makes at most three transport attempts, inserts a
one-second pause between consecutive attempts (`sleeps` is one less than
the attempts made), counts a non-success status and a raised transport
error alike against the budget, and after the budget is exhausted returns
`None` instead of raising (first three conjuncts).  Even when every
attempt fails, the candidate loop still appends the OTPEvent to the
durable store while recording that the dispatcher returned `None` (last
conjunct) — so the durable log can diverge from what the user saw. -/
theorem send_message_retry_budget :
    ∀ tr : Nat → Except String Nat,
      (send_message tr).attemptsMade ≤ 3 ∧
      (send_message tr).sleeps + 1 = (send_message tr).attemptsMade ∧
      ((∀ i, i < 3 → attemptSuccess (tr i) = false) →
        send_message tr = ⟨none, 3, 2⟩) ∧
      (∀ (env : Nat → Option Msg) (now : Nat) (enum : List Nat → List Nat)
        (st : PollSt) (id : Nat) (m : Msg) (c : String),
        (∀ i, i < 3 → attemptSuccess (tr i) = false) →
        env id = some m → msgOtp m = some c →
        id ∉ st.processed → st.processed.length < 100 →
        (process_candidate env tr (Except.ok ()) now enum st id).events =
          st.events ++ [(id, c)] ∧
        (process_candidate env tr (Except.ok ()) now enum st id).notifications =
          st.notifications ++ [(id, c, none)]) := by
  intro tr
  have h1 := sendFrom_spec tr 3 0 (by omega)
  refine ⟨h1.1, h1.2, ?_, ?_⟩
  · intro hf
    exact sendFrom_all_fail tr 3 0 (by omega) (fun i _ hi => hf i (by omega))
  · intro env now enum st id m c hf henv hotp hid hlen
    have hsend : send_message tr = ⟨none, 3, 2⟩ :=
      sendFrom_all_fail tr 3 0 (by omega) (fun i _ hi => hf i (by omega))
    have hno : ¬ 100 < st.processed.length + 1 := by omega
    constructor <;>
      simp [process_candidate, hid, henv, hotp, hsend, log_otp, hno]

/-- Witness for C4: with a transport that always raises, the call returns
`None` after 3 attempts and 2 pauses, and the candidate loop still logs
the OTPEvent for a message whose subject contains a code. -/
theorem send_message_retry_budget_witness :
    send_message (fun _ => Except.error "down") = ⟨none, 3, 2⟩ ∧
    (process_candidate
        (fun i => if i = 0 then some ⟨"a@b.c", "svc", "123456", ""⟩ else none)
        (fun _ => Except.error "down") (Except.ok ()) 0 (fun l => l)
        initSt 0).events = [(0, "123456")] :=
  ⟨(send_message_retry_budget (fun _ => Except.error "down")).2.2.1
      (fun i _ => rfl),
   ((send_message_retry_budget (fun _ => Except.error "down")).2.2.2
      (fun i => if i = 0 then some ⟨"a@b.c", "svc", "123456", ""⟩ else none)
      0 (fun l => l) initSt 0 ⟨"a@b.c", "svc", "123456", ""⟩ "123456"
      (fun i _ => rfl) (by decide) (by decide) (by decide) (by decide)).1⟩

/-! ## Claims about `log_otp` and the in-memory counters -/

/-- C9 counterexample: when the durable write raises, `log_otp` leaves the
in-memory counters untouched — the counter update sits after the commit
inside the same `try` block, so the raised exception skips it.  Here a
failing store leaves the log and the counters `⟨5, some 3⟩` exactly as
they were, refuting the claim that the counters are still advanced. -/
theorem log_otp_failure_keeps_counters :
    log_otp (Except.error "disk full") 7 [(0, "111111")] ⟨5, some 3⟩
      (1, "222222") = ([(0, "111111")], ⟨5, some 3⟩) := rfl

/-- C9 amended: on a persistence failure the error is logged and the
in-memory per-user counters are NOT advanced (both the durable log and
the counters stay unchanged); the counters advance — total incremented,
last-OTP time set — exactly when the durable write succeeds. -/
theorem log_otp_counters_follow_store :
    ∀ (e : String) (now : Nat) (logs : List (Nat × String)) (stats : Stats)
      (ev : Nat × String),
      log_otp (Except.error e) now logs stats ev = (logs, stats) ∧
      log_otp (Except.ok ()) now logs stats ev =
        (logs ++ [ev], ⟨stats.total_otps + 1, some now⟩) := by
  intro e now logs stats ev
  exact ⟨rfl, rfl⟩

/-! ## Claims about the onboarding state machine -/

/-- C5: in the AwaitingCredential state (`waiting = some password`), when
the live authentication probe fails with any error, the onboarding state
is cleared (back to Idle), the staged address is discarded, no Account is
persisted (`account` unchanged, `save_user` never called) and no poller
is started (`monitoring` unchanged); the user receives only the fixed
generic diagnostic — the result does not depend on the error `err` — and
must restart from Idle. -/
theorem onboarding_auth_failure_resets :
    ∀ (probe : String → String → Except String Unit) (saveOk : Bool)
      (sess : Sess) (text em err : String),
      sess.waiting = some .password →
      sess.tempEmail = some em →
      probe em (pyStrip text) = .error err →
      handle_user_input probe saveOk sess text =
        { sess with
            waiting := none,
            tempEmail := none,
            sent := sess.sent ++ [testingMsg, connectionFailedMsg] } := by
  intro probe saveOk sess text em err hw ht hp
  obtain ⟨w, t, a, mon, sn⟩ := sess
  dsimp only at hw ht
  subst hw
  subst ht
  simp [handle_user_input, hp]

/-- Witness for C5: a concrete session in AwaitingCredential with a
probe that rejects the credential. -/
theorem onboarding_auth_failure_resets_witness :
    handle_user_input (fun _ _ => Except.error "auth") true
      ⟨some .password, some "a@b.c", none, false, []⟩ "pw" =
      ⟨none, none, none, false, [testingMsg, connectionFailedMsg]⟩ :=
  onboarding_auth_failure_resets (fun _ _ => Except.error "auth") true
    ⟨some .password, some "a@b.c", none, false, []⟩ "pw" "a@b.c" "auth"
    rfl rfl rfl

/-- C6: in the AwaitingAddress state (`waiting = some email`), input that
fails the minimal address-shape check (must contain the separator `@` and
a domain-segment dot) leaves the state at AwaitingAddress, stages nothing
and only re-prompts, while input that passes the check stages the
stripped address and advances the state to AwaitingCredential. -/
theorem onboarding_address_check :
    ∀ (probe : String → String → Except String Unit) (saveOk : Bool)
      (sess : Sess) (text : String),
      sess.waiting = some .email →
      ((('@' ∈ text.data) ∧ ('.' ∈ text.data)) →
        handle_user_input probe saveOk sess text =
          { sess with
              waiting := some .password,
              tempEmail := some (pyStrip text),
              sent := sess.sent ++ [emailReceivedMsg (pyStrip text)] }) ∧
      ((('@' ∉ text.data) ∨ ('.' ∉ text.data)) →
        handle_user_input probe saveOk sess text =
          { sess with sent := sess.sent ++ [invalidEmailMsg] }) := by
  intro probe saveOk sess text hw
  obtain ⟨w, t, a, mon, sn⟩ := sess
  dsimp only at hw
  subst hw
  constructor
  · intro hvalid
    have hcond : ¬ (('@' ∉ text.data) ∨ ('.' ∉ text.data)) := by
      push_neg
      exact ⟨hvalid.1, hvalid.2⟩
    simp [handle_user_input, hcond]
  · intro hinv
    simp [handle_user_input, hinv]

/-- Witness for C6: `"user@example.com"` passes the shape check and
advances the state; `"nope"` fails it and leaves the state unchanged. -/
theorem onboarding_address_check_witness :
    (handle_user_input (fun _ _ => Except.ok ()) true
       ⟨some .email, none, none, false, []⟩ "user@example.com" =
       ⟨some .password, some (pyStrip "user@example.com"), none, false,
        [emailReceivedMsg (pyStrip "user@example.com")]⟩) ∧
    (handle_user_input (fun _ _ => Except.ok ()) true
       ⟨some .email, none, none, false, []⟩ "nope" =
       ⟨some .email, none, none, false, [invalidEmailMsg]⟩) :=
  ⟨(onboarding_address_check (fun _ _ => Except.ok ()) true
      ⟨some .email, none, none, false, []⟩ "user@example.com" rfl).1
      (by decide),
   (onboarding_address_check (fun _ _ => Except.ok ()) true
      ⟨some .email, none, none, false, []⟩ "nope" rfl).2
      (by decide)⟩

/-! ## Claims about the dedup cache of the candidate loop -/

theorem nodup_subset_dedup_length {l D : List Nat} (hnd : l.Nodup)
    (hsub : ∀ x ∈ l, x ∈ D) : l.length ≤ D.dedup.length := by
  have h1 : l.toFinset.card = l.length := List.toFinset_card_of_nodup hnd
  have h2 : l.toFinset ⊆ D.toFinset := by
    intro a ha
    rw [List.mem_toFinset] at ha ⊢
    exact hsub a ha
  have h3 : l.toFinset.card ≤ D.toFinset.card := Finset.card_le_card h2
  rw [h1, List.card_toFinset] at h3
  exact h3

theorem nodup_append_singleton {l : List Nat} {a : Nat} (h : l.Nodup)
    (ha : a ∉ l) : (l ++ [a]).Nodup := by
  rw [List.nodup_append]
  refine ⟨h, List.nodup_singleton a, ?_⟩
  intro x hx hx2
  rw [List.mem_singleton] at hx2
  subst hx2
  exact ha hx

/-- The dedup cache resulting from one candidate step, independently of
the fetch and extraction outcome: unchanged for a cached candidate,
otherwise the candidate is appended and the batch eviction runs when the
cache has overflowed. -/
theorem processed_eq (env : Nat → Option Msg) (tr : Nat → Except String Nat)
    (store : Except String Unit) (now : Nat) (enum : List Nat → List Nat)
    (st : PollSt) (id : Nat) :
    (process_candidate env tr store now enum st id).processed =
      if id ∈ st.processed then st.processed
      else if (st.processed ++ [id]).length > 100 then
        (st.processed ++ [id]).filter
          (fun x => decide (x ∉ (enum (st.processed ++ [id])).take 50))
      else st.processed ++ [id] := by
  by_cases hid : id ∈ st.processed
  · simp [process_candidate, hid]
  · cases henv : env id with
    | none =>
      simp [process_candidate, hid, henv]
      split <;> rfl
    | some m =>
      cases hotp : msgOtp m with
      | none =>
        simp [process_candidate, hid, henv, hotp]
        split <;> rfl
      | some c =>
        simp [process_candidate, hid, henv, hotp]
        split <;> rfl

/-- Removing the first 50 entries of any enumeration of a duplicate-free
list removes exactly 50 elements. -/
theorem evict_length (l e : List Nat) (hnd : l.Nodup) (hp : e.Perm l)
    (_hlen : 50 ≤ l.length) :
    (l.filter (fun x => decide (x ∉ e.take 50))).length = l.length - 50 := by
  have hend : e.Nodup := hp.nodup_iff.mpr hnd
  have hel : e.length = l.length := hp.length_eq
  have hflen : (l.filter (fun x => decide (x ∉ e.take 50))).length =
      (e.filter (fun x => decide (x ∉ e.take 50))).length :=
    (List.Perm.length_eq (hp.filter _)).symm
  rw [hflen]
  set s := e.take 50 with hs
  set d := e.drop 50 with hd
  have hsplit : s ++ d = e := List.take_append_drop 50 e
  have hnd2 : (s ++ d).Nodup := by rw [hsplit]; exact hend
  have hdisj : List.Disjoint s d := (List.nodup_append.mp hnd2).2.2
  rw [← hsplit, List.filter_append]
  have h1 : s.filter (fun x => decide (x ∉ s)) = [] := by
    apply List.filter_eq_nil_iff.mpr
    intro a ha
    simp [ha]
  have h2 : d.filter (fun x => decide (x ∉ s)) = d := by
    apply List.filter_eq_self.mpr
    intro a ha
    simp only [decide_eq_true_eq]
    exact fun ha2 => hdisj ha2 ha
  rw [h1, h2]
  have h3 : d.length = l.length - 50 := by
    rw [hd, List.length_drop, hel]
  simp [h3]

theorem step_bound (env : Nat → Option Msg) (tr : Nat → Except String Nat)
    (store : Except String Unit) (now : Nat) (enum : List Nat → List Nat)
    (hperm : ∀ l, (enum l).Perm l) (st : PollSt) (id : Nat)
    (hnd : st.processed.Nodup) (hlen : st.processed.length ≤ 100) :
    (process_candidate env tr store now enum st id).processed.Nodup ∧
    (process_candidate env tr store now enum st id).processed.length ≤ 100 := by
  rw [processed_eq]
  by_cases hid : id ∈ st.processed
  · rw [if_pos hid]
    exact ⟨hnd, hlen⟩
  · rw [if_neg hid]
    have hnd1 : (st.processed ++ [id]).Nodup := nodup_append_singleton hnd hid
    by_cases hbig : (st.processed ++ [id]).length > 100
    · rw [if_pos hbig]
      have h50 : 50 ≤ (st.processed ++ [id]).length := by omega
      have hev := evict_length (st.processed ++ [id])
        (enum (st.processed ++ [id])) hnd1 (hperm _) h50
      refine ⟨hnd1.filter _, ?_⟩
      rw [hev]
      rw [List.length_append] at hbig ⊢
      simp only [List.length_singleton] at hbig ⊢
      omega
    · rw [if_neg hbig]
      exact ⟨hnd1, by omega⟩

theorem run_bound (env : Nat → Option Msg) (tr : Nat → Except String Nat)
    (store : Except String Unit) (now : Nat) (enum : List Nat → List Nat)
    (hperm : ∀ l, (enum l).Perm l) :
    ∀ (ids : List Nat) (st : PollSt), st.processed.Nodup →
      st.processed.length ≤ 100 →
      (ids.foldl (process_candidate env tr store now enum) st).processed.Nodup ∧
      (ids.foldl (process_candidate env tr store now enum) st).processed.length
        ≤ 100 := by
  intro ids
  induction ids with
  | nil => intro st h1 h2; exact ⟨h1, h2⟩
  | cons id tl ih =>
    intro st h1 h2
    have hstep := step_bound env tr store now enum hperm st id h1 h2
    exact ih _ hstep.1 hstep.2

/-- C3 (amended): for every eviction order (the iteration order of the
Python set is unspecified, so it is universally quantified as a
permutation), the dedup cache holds at most 100 entries after every
candidate, hence never exceeds the capacity threshold by more than one
batch worth of entries after any number of poll cycles; and whenever an
insertion makes the cache exceed 100 entries, exactly 50 entries are
evicted in one batch (101 entries shrink to 51). -/
theorem dedup_cache_bound :
    ∀ (env : Nat → Option Msg) (tr : Nat → Except String Nat)
      (store : Except String Unit) (now : Nat) (enum : List Nat → List Nat),
      (∀ l, (enum l).Perm l) →
      (∀ ids : List Nat,
        (runList env tr store now enum ids).processed.length ≤ 100) ∧
      (∀ (st : PollSt) (id : Nat), st.processed.Nodup → id ∉ st.processed →
        st.processed.length = 100 →
        (process_candidate env tr store now enum st id).processed.length = 51) := by
  intro env tr store now enum hperm
  constructor
  · intro ids
    exact (run_bound env tr store now enum hperm ids initSt
      List.nodup_nil (by simp [initSt])).2
  · intro st id hnd hid hlen
    rw [processed_eq, if_neg hid]
    have hbig : (st.processed ++ [id]).length > 100 := by
      rw [List.length_append]
      simp only [List.length_singleton]
      omega
    rw [if_pos hbig]
    have hnd1 : (st.processed ++ [id]).Nodup := nodup_append_singleton hnd hid
    rw [evict_length (st.processed ++ [id]) (enum (st.processed ++ [id]))
      hnd1 (hperm _) (by omega)]
    rw [List.length_append]
    simp only [List.length_singleton]
    omega

/-- Witness for C3: presenting 150 distinct candidates (with the identity
enumeration, which is a permutation) leaves at most 100 cached entries. -/
theorem dedup_cache_bound_witness :
    (runList (fun _ => none) (fun _ => Except.error "net") (Except.ok ()) 0
      (fun l => l) (List.range 150)).processed.length ≤ 100 :=
  (dedup_cache_bound (fun _ => none) (fun _ => Except.error "net")
    (Except.ok ()) 0 (fun l => l) (fun l => List.Perm.refl l)).1
    (List.range 150)

set_option maxRecDepth 4000 in
/-- C3 counterexample (to "evicted oldest-first"): the source evicts
`list(set)[:50]`, and the iteration order of a Python set is unspecified —
it is not insertion order.  Under the admissible enumeration that yields
the reverse of insertion order, presenting the 101 distinct candidates
0..100 triggers one batch eviction that removes the NEWEST 50 entries:
the oldest entry 0 survives and the newest entry 100 is evicted, so the
eviction is not oldest-first. -/
theorem dedup_eviction_not_oldest_first :
    0 ∈ (runList (fun _ => none) (fun _ => Except.error "net") (Except.ok ())
          0 (fun l => l.reverse) (List.range 101)).processed ∧
    100 ∉ (runList (fun _ => none) (fun _ => Except.error "net") (Except.ok ())
          0 (fun l => l.reverse) (List.range 101)).processed := by
  exact ⟨by decide, by decide⟩

/-! ## Claim C2: at-most-once notification per message identifier -/

theorem filter_key_append3 (l : List (Nat × String × Option Nat))
    (e : Nat × String × Option Nat) (x : Nat) :
    ((l ++ [e]).filter (fun a => a.1 == x)).length =
      (l.filter (fun a => a.1 == x)).length + (if e.1 = x then 1 else 0) := by
  rw [List.filter_append, List.length_append]
  by_cases h : e.1 = x <;> simp [h]

theorem filter_key_append2 (l : List (Nat × String)) (e : Nat × String)
    (x : Nat) :
    ((l ++ [e]).filter (fun a => a.1 == x)).length =
      (l.filter (fun a => a.1 == x)).length + (if e.1 = x then 1 else 0) := by
  rw [List.filter_append, List.length_append]
  by_cases h : e.1 = x <;> simp [h]

theorem step_inv (env : Nat → Option Msg) (tr : Nat → Except String Nat)
    (now : Nat) (enum : List Nat → List Nat) (D : List Nat)
    (hcap : D.dedup.length ≤ 100) (seen : List Nat) (st : PollSt) (id : Nat)
    (hseen : ∀ y ∈ seen, y ∈ D) (hid : id ∈ D) (h : Inv env seen st) :
    Inv env (seen ++ [id])
      (process_candidate env tr (Except.ok ()) now enum st id) := by
  obtain ⟨hnd, hmem, hn, he⟩ := h
  by_cases hin : id ∈ st.processed
  · -- candidate already cached: `continue`, state unchanged
    have heq : process_candidate env tr (Except.ok ()) now enum st id = st := by
      simp [process_candidate, hin]
    rw [heq]
    have hidseen : id ∈ seen := (hmem id).mp hin
    have hext : ∀ x : Nat, x ∈ seen ++ [id] ↔ x ∈ seen := by
      intro x
      simp only [List.mem_append, List.mem_singleton]
      constructor
      · rintro (hx | rfl)
        · exact hx
        · exact hidseen
      · exact Or.inl
    refine ⟨hnd, ?_, ?_, he⟩
    · intro x
      rw [hmem x]
      exact (hext x).symm
    · intro x
      rw [hn x]
      exact if_congr (and_congr_left fun _ => (hext x).symm) rfl rfl
  · -- fresh candidate: added to the cache, then processed
    have hidseen : id ∉ seen := fun hc => hin ((hmem id).mpr hc)
    have hsub : ∀ y ∈ st.processed ++ [id], y ∈ D := by
      intro y hy
      rcases List.mem_append.mp hy with h1 | h1
      · exact hseen y ((hmem y).mp h1)
      · rw [List.mem_singleton] at h1
        subst h1
        exact hid
    have hnd1 : (st.processed ++ [id]).Nodup := nodup_append_singleton hnd hin
    have hlen1 : (st.processed ++ [id]).length ≤ 100 :=
      le_trans (nodup_subset_dedup_length hnd1 hsub) hcap
    have hno : ¬ (st.processed ++ [id]).length > 100 := by omega
    have hmem1 : ∀ x : Nat, x ∈ st.processed ++ [id] ↔ x ∈ seen ++ [id] := by
      intro x
      simp only [List.mem_append, List.mem_singleton, hmem x]
    cases henv : env id with
    | none =>
      have heq : process_candidate env tr (Except.ok ()) now enum st id =
          { st with processed := st.processed ++ [id] } := by
        simp only [process_candidate, if_neg hin, henv]
        rw [if_neg hno]
      rw [heq]
      have hoc : otpOf env id = none := by simp [otpOf, henv]
      refine ⟨hnd1, hmem1, ?_, ?_⟩
      · intro x
        show notifCount st x = _
        rw [hn x]
        by_cases hx : x = id
        · subst hx
          rw [if_neg (fun hc => hidseen hc.1), if_neg]
          rintro ⟨_, hc2⟩
          rw [hoc] at hc2
          exact absurd hc2 (by simp)
        · refine (if_congr (and_congr_left fun _ => ?_) rfl rfl)
          constructor
          · exact fun h1 => List.mem_append.mpr (Or.inl h1)
          · intro h1
            rcases List.mem_append.mp h1 with h2 | h2
            · exact h2
            · rw [List.mem_singleton] at h2
              exact absurd h2 hx
      · intro x
        exact he x
    | some m =>
      cases hotp : msgOtp m with
      | none =>
        have heq : process_candidate env tr (Except.ok ()) now enum st id =
            { st with processed := st.processed ++ [id] } := by
          simp only [process_candidate, if_neg hin, henv, hotp]
          rw [if_neg hno]
        rw [heq]
        have hoc : otpOf env id = none := by simp [otpOf, henv, hotp]
        refine ⟨hnd1, hmem1, ?_, ?_⟩
        · intro x
          show notifCount st x = _
          rw [hn x]
          by_cases hx : x = id
          · subst hx
            rw [if_neg (fun hc => hidseen hc.1), if_neg]
            rintro ⟨_, hc2⟩
            rw [hoc] at hc2
            exact absurd hc2 (by simp)
          · refine (if_congr (and_congr_left fun _ => ?_) rfl rfl)
            constructor
            · exact fun h1 => List.mem_append.mpr (Or.inl h1)
            · intro h1
              rcases List.mem_append.mp h1 with h2 | h2
              · exact h2
              · rw [List.mem_singleton] at h2
                exact absurd h2 hx
        · intro x
          exact he x
      | some code =>
        have heq : process_candidate env tr (Except.ok ()) now enum st id =
            { st with
                processed := st.processed ++ [id],
                notifications := st.notifications ++
                  [(id, code, (send_message tr).result)],
                events := st.events ++ [(id, code)],
                stats := ⟨st.stats.total_otps + 1, some now⟩ } := by
          simp only [process_candidate, if_neg hin, henv, hotp, log_otp]
          rw [if_neg hno]
        rw [heq]
        have hoc : otpOf env id = some code := by simp [otpOf, henv, hotp]
        have hcount : ∀ x : Nat,
            notifCount { st with
                processed := st.processed ++ [id],
                notifications := st.notifications ++
                  [(id, code, (send_message tr).result)],
                events := st.events ++ [(id, code)],
                stats := (⟨st.stats.total_otps + 1, some now⟩ : Stats) } x =
              notifCount st x + (if id = x then 1 else 0) := by
          intro x
          show ((st.notifications ++ [(id, code, (send_message tr).result)]).filter
            (fun a => a.1 == x)).length = _
          rw [filter_key_append3]
          rfl
        have hecount : ∀ x : Nat,
            eventCount { st with
                processed := st.processed ++ [id],
                notifications := st.notifications ++
                  [(id, code, (send_message tr).result)],
                events := st.events ++ [(id, code)],
                stats := (⟨st.stats.total_otps + 1, some now⟩ : Stats) } x =
              eventCount st x + (if id = x then 1 else 0) := by
          intro x
          show ((st.events ++ [(id, code)]).filter
            (fun a => a.1 == x)).length = _
          rw [filter_key_append2]
          rfl
        refine ⟨hnd1, hmem1, ?_, ?_⟩
        · intro x
          rw [hcount x, hn x]
          by_cases hx : x = id
          · subst hx
            rw [if_neg (fun hc => hidseen hc.1), if_pos rfl, if_pos]
            exact ⟨List.mem_append.mpr (Or.inr (List.mem_singleton.mpr rfl)),
              by rw [hoc]; rfl⟩
          · rw [if_neg (fun hc : id = x => hx hc.symm), Nat.add_zero]
            refine (if_congr (and_congr_left fun _ => ?_) rfl rfl)
            constructor
            · exact fun h1 => List.mem_append.mpr (Or.inl h1)
            · intro h1
              rcases List.mem_append.mp h1 with h2 | h2
              · exact h2
              · rw [List.mem_singleton] at h2
                exact absurd h2 hx
        · intro x
          rw [hcount x, hecount x, he x]

theorem run_inv (env : Nat → Option Msg) (tr : Nat → Except String Nat)
    (now : Nat) (enum : List Nat → List Nat) (D : List Nat)
    (hcap : D.dedup.length ≤ 100) :
    ∀ (todo seen : List Nat) (st : PollSt),
      (∀ y ∈ seen, y ∈ D) → (∀ y ∈ todo, y ∈ D) → Inv env seen st →
      Inv env (seen ++ todo)
        (todo.foldl (process_candidate env tr (Except.ok ()) now enum) st) := by
  intro todo
  induction todo with
  | nil =>
    intro seen st h1 _ h3
    simpa using h3
  | cons id tl ih =>
    intro seen st h1 h2 h3
    have hstep := step_inv env tr now enum D hcap seen st id h1
      (h2 id (by simp)) h3
    have hnext := ih (seen ++ [id])
      (process_candidate env tr (Except.ok ()) now enum st id)
      (by
        intro y hy
        rcases List.mem_append.mp hy with hm | hm
        · exact h1 y hm
        · rw [List.mem_singleton] at hm
          rw [hm]
          exact h2 id (by simp))
      (fun y hy => h2 y (by simp [hy]))
      hstep
    simpa [List.append_assoc] using hnext

/-- C2 (amended): as long as the distinct message identifiers presented
within one process lifetime fit in the dedup cache (at most its capacity
of 100, so that batch eviction never discards a live entry) and the
durable write succeeds, presenting the same identifier to poll cycles any
number of times yields exactly one notification and exactly one OTPEvent
for it; a candidate already in the cache is skipped unchanged, and a
fresh candidate enters the cache no matter what its fetch and extraction
produce.  (With more than the capacity of distinct identifiers in between,
eviction can drop the identifier and a later presentation is re-notified
— see the counterexample.) -/
theorem dedup_single_notification :
    ∀ (env : Nat → Option Msg) (tr : Nat → Except String Nat) (now : Nat)
      (enum : List Nat → List Nat) (ids : List Nat) (id : Nat) (c : String),
      ids.dedup.length ≤ 100 →
      id ∈ ids →
      otpOf env id = some c →
      notifCount (runList env tr (Except.ok ()) now enum ids) id = 1 ∧
      eventCount (runList env tr (Except.ok ()) now enum ids) id = 1 ∧
      (∀ st : PollSt, id ∈ st.processed →
        process_candidate env tr (Except.ok ()) now enum st id = st) ∧
      (∀ st : PollSt, id ∉ st.processed → st.processed.length < 100 →
        id ∈ (process_candidate env tr (Except.ok ()) now enum st id).processed) := by
  intro env tr now enum ids id c hcap hid hotp
  have hinv0 : Inv env [] initSt := by
    refine ⟨List.nodup_nil, by simp [initSt], ?_, ?_⟩
    · intro x
      simp [initSt, notifCount]
    · intro x
      simp [initSt, notifCount, eventCount]
  have hinv := run_inv env tr now enum ids hcap ids [] initSt
    (by simp) (fun y hy => hy) hinv0
  rw [List.nil_append] at hinv
  obtain ⟨_, _, hn, he⟩ := hinv
  have hcnt : notifCount (runList env tr (Except.ok ()) now enum ids) id = 1 := by
    have hx := hn id
    rw [if_pos ⟨hid, by rw [hotp]; rfl⟩] at hx
    exact hx
  refine ⟨hcnt, (he id).trans hcnt, ?_, ?_⟩
  · intro st hin
    simp [process_candidate, hin]
  · intro st hin hlen
    rw [processed_eq, if_neg hin]
    have hno : ¬ (st.processed ++ [id]).length > 100 := by
      rw [List.length_append]
      simp only [List.length_singleton]
      omega
    rw [if_neg hno]
    exact List.mem_append.mpr (Or.inr (List.mem_singleton.mpr rfl))

/-- Witness for C2: identifier 0 (whose message subject contains the code
`123456`) presented twice among three candidates is notified and logged
exactly once. -/
theorem dedup_single_notification_witness :
    notifCount (runList
      (fun i => if i = 0 then some ⟨"a@b.c", "svc", "123456", ""⟩ else none)
      (fun _ => Except.ok 200) (Except.ok ()) 0 (fun l => l) [0, 1, 0]) 0 = 1 ∧
    eventCount (runList
      (fun i => if i = 0 then some ⟨"a@b.c", "svc", "123456", ""⟩ else none)
      (fun _ => Except.ok 200) (Except.ok ()) 0 (fun l => l) [0, 1, 0]) 0 = 1 :=
  ⟨(dedup_single_notification
      (fun i => if i = 0 then some ⟨"a@b.c", "svc", "123456", ""⟩ else none)
      (fun _ => Except.ok 200) 0 (fun l => l) [0, 1, 0] 0 "123456"
      (by decide) (by decide) (by decide)).1,
   (dedup_single_notification
      (fun i => if i = 0 then some ⟨"a@b.c", "svc", "123456", ""⟩ else none)
      (fun _ => Except.ok 200) 0 (fun l => l) [0, 1, 0] 0 "123456"
      (by decide) (by decide) (by decide)).2.1⟩

set_option maxRecDepth 8000 in
/-- C2 counterexample: the claim fails as stated, because batch eviction
can remove an identifier from the dedup cache within one process
lifetime.  Identifier 0 is presented, then 101 further distinct
candidates overflow the cache and the batch eviction (here under the
insertion-order enumeration, one admissible iteration order of the
Python set) evicts identifier 0; when identifier 0 is presented again it
is processed afresh, yielding TWO notifications and TWO OTPEvents for
the same message identifier in one process lifetime. -/
theorem dedup_renotify_after_eviction :
    notifCount (runList
      (fun i => if i = 0 then some ⟨"a@b.c", "svc", "123456", ""⟩ else none)
      (fun _ => Except.ok 200) (Except.ok ()) 0 (fun l => l)
      ([0] ++ (List.range 101).map (fun n => n + 1) ++ [0])) 0 = 2 ∧
    eventCount (runList
      (fun i => if i = 0 then some ⟨"a@b.c", "svc", "123456", ""⟩ else none)
      (fun _ => Except.ok 200) (Except.ok ()) 0 (fun l => l)
      ([0] ++ (List.range 101).map (fun n => n + 1) ++ [0])) 0 = 2 := by
  exact ⟨by decide, by decide⟩

end OtpBot
